import Mathlib

/-!
Shallow embedding of the `bsladewski/discovery` service registry.

The registry store is translated from `src/discovery/randomregistry.go`:
timestamps (`time.Time`) and durations (`time.Duration`) are modelled as
integers (nanosecond counts), and `time.Since(t)` at instant `now` is
`now - t`.  The registration agent's start/stop state machine is
translated from the `RegistryClient` in `src/unnamed/part_005`, the HTTP
handlers from `src/server.go`, and the plain discovery client from
`src/discovery/client.go`.  Go's `rand.Intn` draw and the HTTP transport
and JSON decoding outcomes are passed in as explicit oracle parameters.
-/

/-- A service record: `Service` from `src/discovery/model.go`.  `added` is
the last-renewal timestamp (`Added time.Time`), modelled as an integer. -/
structure Service where
  name : String
  host : String
  added : Int
deriving DecidableEq, Repr

abbrev ServiceList := List Service

/-- The record store: `randomRegistry` from `src/discovery/randomregistry.go`.
`timeout` is the active window (`Timeout`), `keep` the retention window
(`Keep`).  The mutex field is not part of the sequential state. -/
structure RandomRegistry where
  services : ServiceList
  timeout : Int
  keep : Int
deriving DecidableEq, Repr

/-- The key comparison used by `indexOf` in the Go source:
`service.Name == target.Name && service.Host == target.Host`. -/
def sameKey (a b : Service) : Bool :=
  a.name == b.name && a.host == b.host

/-- `indexOf` from `src/discovery/randomregistry.go`: index of the first
record whose `(name, host)` pair equals the target's.  The Go function
returns `-1` when there is no match; that sentinel is embedded as `none`. -/
def indexOf : ServiceList → Service → Option Nat
  | [], _ => none
  | s :: rest, t =>
    if sameKey s t then some 0 else (indexOf rest t).map (· + 1)

/-- Age of a record at instant `now`: `time.Since(service.Added)`. -/
def age (now : Int) (s : Service) : Int := now - s.added

/-- The name filter of `getAll`: `name == "" || name == service.Name`. -/
def matchesName (name : String) (s : Service) : Bool :=
  name == "" || name == s.name

/-- The per-record inclusion test of `getAll`:
`time.Since(Added) < Timeout || (inactive && time.Since(Added) >= Timeout && time.Since(Added) < Keep)`,
guarded by the name filter. -/
def includedService (timeout keep now : Int) (name : String) (inactive : Bool)
    (s : Service) : Bool :=
  matchesName name s &&
    (decide (age now s < timeout) ||
      (inactive && decide (timeout ≤ age now s) && decide (age now s < keep)))

/-- The stale test of `getAll`: `time.Since(service.Added) > r.Keep`
(strictly greater in the source). -/
def isStale (keep now : Int) (s : Service) : Bool :=
  decide (keep < age now s)

/-- The body of Go `Remove` on the record slice: splice out the record at
`indexOf` when the index is non-negative, otherwise leave the slice alone. -/
def removeGo (l : ServiceList) (t : Service) : ServiceList :=
  match indexOf l t with
  | some idx => l.eraseIdx idx
  | none => l

/-- `Remove` from `src/discovery/randomregistry.go`. -/
def RandomRegistry.Remove (r : RandomRegistry) (t : Service) : RandomRegistry :=
  { r with services := removeGo r.services t }

/-- `r.Services[idx].Added = time.Now()`: replace the `added` field of the
record at position `idx`, leaving every other record in place. -/
def renewAt (now : Int) : ServiceList → Nat → ServiceList
  | [], _ => []
  | s :: rest, 0 => { s with added := now } :: rest
  | s :: rest, n + 1 => s :: renewAt now rest n

/-- The body of Go `Add` on the record slice: when `indexOf` finds the key,
stamp that record's `Added` with `now`; otherwise append the argument with
its `Added` overwritten by `now`. -/
def addGo (l : ServiceList) (now : Int) (t : Service) : ServiceList :=
  match indexOf l t with
  | some idx => renewAt now l idx
  | none => l ++ [{ t with added := now }]

/-- `Add` from `src/discovery/randomregistry.go`. -/
def RandomRegistry.Add (r : RandomRegistry) (now : Int) (t : Service) : RandomRegistry :=
  { r with services := addGo r.services now t }

/-- `getAll` from `src/discovery/randomregistry.go`.  Under one lock the
scan collects the filtered result and the list of stale records; after the
lock is released each stale record is removed with `Remove`.  The pair is
the returned slice together with the mutated registry. -/
def RandomRegistry.getAll (r : RandomRegistry) (now : Int) (name : String)
    (inactive : Bool) : ServiceList × RandomRegistry :=
  let services := r.services.filter (includedService r.timeout r.keep now name inactive)
  let stale := r.services.filter (isStale r.keep now)
  (services, stale.foldl (fun acc s => acc.Remove s) r)

/-- `Get` from `src/discovery/randomregistry.go`.  The `rand.Intn` draw is
the oracle parameter `k`; `rand.Intn n` is uniform on `[0, n)`, embedded as
`k % n`.  The error string is the source's (including its typo). -/
def RandomRegistry.Get (r : RandomRegistry) (now : Int) (name : String)
    (k : Nat) : Except String Service × RandomRegistry :=
  let p := r.getAll now name false
  if h : p.1.length = 0 then
    (Except.error ("so such service '" ++ name ++ "'"), p.2)
  else
    (Except.ok (p.1.get ⟨k % p.1.length, Nat.mod_lt k (Nat.pos_of_ne_zero h)⟩), p.2)

/-- `List` from `src/discovery/randomregistry.go`: `getAll` with
`inactive = true`. -/
def RandomRegistry.List (r : RandomRegistry) (now : Int) (name : String) :
    ServiceList × RandomRegistry :=
  r.getAll now name true

/-- `SetTimeout` from `src/discovery/randomregistry.go`. -/
def RandomRegistry.SetTimeout (r : RandomRegistry) (timeout : Int) : RandomRegistry :=
  { r with timeout := timeout }

/-- `SetKeep` from `src/discovery/randomregistry.go`. -/
def RandomRegistry.SetKeep (r : RandomRegistry) (keep : Int) : RandomRegistry :=
  { r with keep := keep }

/-- Number of records in `l` whose `(name, host)` key equals `t`'s. -/
def countKey (l : ServiceList) (t : Service) : Nat :=
  (l.filter (fun s => sameKey s t)).length

/-- The active subset used by `Get`: the slice `getAll(name, false)` returns. -/
def activeSubset (r : RandomRegistry) (now : Int) (name : String) : ServiceList :=
  (r.getAll now name false).1

/-- Removing the first record with the target's key, written as a structural
recursion; `removeGo_eq_removeFirstKey` identifies it with the index-based
splice the Go source performs. -/
def removeFirstKey : ServiceList → Service → ServiceList
  | [], _ => []
  | s :: rest, t => if sameKey s t then rest else s :: removeFirstKey rest t

/-- One mutating store call issued by another goroutine; each such call
acquires the registry mutex for its own critical section. -/
inductive StoreOp where
  | add (now : Int) (s : Service)
  | remove (s : Service)
  | setTimeout (d : Int)
  | setKeep (d : Int)
deriving DecidableEq, Repr

def applyOp (r : RandomRegistry) : StoreOp → RandomRegistry
  | StoreOp.add now s => r.Add now s
  | StoreOp.remove s => r.Remove s
  | StoreOp.setTimeout d => r.SetTimeout d
  | StoreOp.setKeep d => r.SetKeep d

/-- The first critical section of `getAll`: under the lock one scan computes
both the filtered result and the stale list from the same snapshot of the
records and the two windows. -/
def getAllScan (r : RandomRegistry) (now : Int) (name : String)
    (inactive : Bool) : ServiceList × ServiceList :=
  (r.services.filter (includedService r.timeout r.keep now name inactive),
   r.services.filter (isStale r.keep now))

/-- `getAll` with its real lock structure exposed: the scan runs in one
critical section, the mutex is then released (`r.mutex.Unlock()` precedes
the removal loop in the source), the critical sections of `ops` from
concurrent callers may run, and only then does the expiry pass call `Remove`
— each call re-acquiring the mutex — on the records the scan collected. -/
def getAllInterleaved (r : RandomRegistry) (now : Int) (name : String)
    (inactive : Bool) (ops : List StoreOp) : ServiceList × RandomRegistry :=
  let scan := getAllScan r now name inactive
  let r1 := ops.foldl applyOp r
  (scan.1, scan.2.foldl (fun acc s => acc.Remove s) r1)

/-- State of the agent's two-step loop start (`src/unnamed/part_005`):
`running` is the mutex-guarded flag read by `Auto` through `IsRunning()` and
set by `doAuto` through `setRunning(true)`; `pending` counts goroutines
spawned by `go client.doAuto(interval)` that have not yet executed their
first statement; `loops` counts renewal loops that have started. -/
structure AgentState where
  running : Bool
  pending : Nat
  loops : Nat
deriving DecidableEq, Repr

/-- An atomic event of the agent: `auto` is one `Auto(interval)` call — its
`IsRunning()` read is one critical section, after which it spawns `doAuto`
exactly when the flag was false; `start` is a spawned `doAuto` goroutine
reaching `setRunning(true)` and entering its loop. -/
inductive AgentEvent where
  | auto
  | start
deriving DecidableEq, Repr

def agentStep (st : AgentState) : AgentEvent → AgentState
  | AgentEvent.auto =>
    if st.running then st else { st with pending := st.pending + 1 }
  | AgentEvent.start =>
    match st.pending with
    | 0 => st
    | p + 1 => { running := true, pending := p, loops := st.loops + 1 }

def agentRun (st : AgentState) (evs : List AgentEvent) : AgentState :=
  evs.foldl agentStep st

def agentInit : AgentState := { running := false, pending := 0, loops := 0 }

/-- The caller-visible state of `RegistryClient.Deregister`
(`src/unnamed/part_005`): the mutex-guarded running flag and the occupancy
of the single-slot `shutdown` channel (`make(chan bool, 1)`). -/
structure RCState where
  running : Bool
  channel : Nat
deriving DecidableEq, Repr

/-- The non-blocking send `select { case client.shutdown <- true: default: }`:
when a signal is already pending the send is dropped, otherwise the slot is
filled. -/
def sendShutdown (ch : Nat) : Nat :=
  if 1 ≤ ch then ch else ch + 1

/-- `Deregister` from `src/unnamed/part_005`: when the running flag is set it
first performs the non-blocking send on the shutdown channel and only then
issues the remote deregister request.  The outcome of marshalling plus the
HTTP round-trip (an error for a transport failure or a non-200 status) is
the oracle `remote`; such an error is returned to the caller. -/
def RegistryClient.Deregister (st : RCState) (remote : Except String Unit) :
    RCState × Option String :=
  let st1 :=
    if st.running then { st with channel := sendShutdown st.channel } else st
  match remote with
  | Except.ok _ => (st1, none)
  | Except.error e => (st1, some e)

/-- `Discover` from `src/discovery/client.go`.  The HTTP GET is the oracle
`transport` — an error value for a transport failure, otherwise the response
body; JSON decoding into the zero-valued `Service` is the oracle `decode`,
returning the (possibly partially filled) decoded value together with a
success flag.  The source's decode-error branch,
`if err != nil { return service.Host, nil }`, returns the host with a nil
error exactly like the success path, and is embedded as written. -/
def DiscoveryClient.Discover (transport : Except String String)
    (decode : String → Service × Bool) : Except String String :=
  match transport with
  | Except.error e => Except.error e
  | Except.ok body =>
    let r := decode body
    if r.2 = false then Except.ok r.1.host
    else Except.ok r.1.host

/-- `List` from `src/discovery/client.go`.  Same oracle conventions as
`Discover`; the source's decode-error branch,
`if err != nil { return []Service{}, nil }`, returns an empty slice with a
nil error. -/
def DiscoveryClient.List (transport : Except String String)
    (decode : String → ServiceList × Bool) : Except String ServiceList :=
  match transport with
  | Except.error e => Except.error e
  | Except.ok body =>
    let r := decode body
    if r.2 = false then Except.ok []
    else Except.ok r.1

/-- A decoder failing on every body, leaving the zero-valued struct — the
behaviour of `json.Decoder.Decode` on a body that is not valid JSON. -/
def decodeServiceFail : String → Service × Bool := fun _ => (⟨"", "", 0⟩, false)

/-- A decoder for the list payload failing on every body. -/
def decodeListFail : String → ServiceList × Bool := fun _ => ([], false)

/-- An HTTP request as the handlers in `src/server.go` consume it: the
method, the headers, the JSON-decoded body (`none` standing for a nil body
or a decode failure) and the URL query parameters. -/
structure HttpRequest where
  method : String
  headers : List (String × String)
  body : Option Service
  query : List (String × String)

/-- First value stored under a key in a header or query list, or `""` when
the key is absent: `r.Header.Get(key)` and `r.URL.Query().Get(key)`. -/
def firstValue : List (String × String) → String → String
  | [], _ => ""
  | (k, v) :: rest, key => if k = key then v else firstValue rest key

/-- `handleRegister` from `src/server.go`: 405 on a non-POST method, 401 when
the authenticator rejects the request's `Authentication` header value, 400
on a missing/undecodable body or an empty name or host, otherwise upsert and
200. -/
def Server.handleRegister (auth : String → Bool) (req : HttpRequest)
    (r : RandomRegistry) (now : Int) : Nat × RandomRegistry :=
  if req.method ≠ "POST" then (405, r)
  else if auth (firstValue req.headers "Authentication") = false then (401, r)
  else
    match req.body with
    | none => (400, r)
    | some service =>
      if service.name = "" ∨ service.host = "" then (400, r)
      else (200, r.Add now service)

/-- `handleDeregister` from `src/server.go`: as `handleRegister` but for
DELETE, removing the record; the authenticator is evaluated on the
`Authentication` header value. -/
def Server.handleDeregister (auth : String → Bool) (req : HttpRequest)
    (r : RandomRegistry) : Nat × RandomRegistry :=
  if req.method ≠ "DELETE" then (405, r)
  else if auth (firstValue req.headers "Authentication") = false then (401, r)
  else
    match req.body with
    | none => (400, r)
    | some service =>
      if service.name = "" ∨ service.host = "" then (400, r)
      else (200, r.Remove service)

/-- `handleDiscover` from `src/server.go`: 405 on a non-GET method, 401 when
the authenticator rejects the `Authentication` header value, 400 on an empty
`name` query, 404 when the store's `Get` fails, otherwise 200.  The JSON
marshalling branch (500) is not modelled: marshalling a `Service` value
cannot fail. -/
def Server.handleDiscover (auth : String → Bool) (req : HttpRequest)
    (r : RandomRegistry) (now : Int) (k : Nat) : Nat × RandomRegistry :=
  if req.method ≠ "GET" then (405, r)
  else if auth (firstValue req.headers "Authentication") = false then (401, r)
  else
    let name := firstValue req.query "name"
    if name = "" then (400, r)
    else
      let p := r.Get now name k
      match p.1 with
      | Except.error _ => (404, p.2)
      | Except.ok _ => (200, p.2)

/-- `handleList` from `src/server.go`: 405 on a non-GET method, 401 when the
authenticator rejects the `Authorization` header value, otherwise 200 with
the store's `List` result. -/
def Server.handleList (auth : String → Bool) (req : HttpRequest)
    (r : RandomRegistry) (now : Int) : Nat × RandomRegistry :=
  if req.method ≠ "GET" then (405, r)
  else if auth (firstValue req.headers "Authorization") = false then (401, r)
  else (200, (r.List now (firstValue req.query "name")).2)

/-- `handlePing` from `src/server.go`: no method gate; 401 when the
authenticator rejects the `Authorization` header value, otherwise 200. -/
def Server.handlePing (auth : String → Bool) (req : HttpRequest) : Nat :=
  if auth (firstValue req.headers "Authorization") = false then 401 else 200

/-- The register request built by `RegistryClient.Register`
(`src/discovery/registryclient.go`, likewise `src/unnamed/part_005`): a POST
whose token is placed in the `Authorization` header —
`req.Header.Set("Authorization", client.token)` — with the client's service
record as the body. -/
def registryClientRegisterRequest (token : String) (service : Service) :
    HttpRequest :=
  { method := "POST", headers := [("Authorization", token)],
    body := some service, query := [] }

/-- The deregister request built by `RegistryClient.Deregister`: a DELETE
with the token in the `Authorization` header. -/
def registryClientDeregisterRequest (token : String) (service : Service) :
    HttpRequest :=
  { method := "DELETE", headers := [("Authorization", token)],
    body := some service, query := [] }

/-- The discover request built by `Client.Discover` (`src/client.go`): a GET
with the token in the `Authorization` header and the name in the query. -/
def clientDiscoverRequest (token name : String) : HttpRequest :=
  { method := "GET", headers := [("Authorization", token)], body := none,
    query := [("name", name)] }

/-- The list request built by `Client.List` (`src/client.go`). -/
def clientListRequest (token name : String) : HttpRequest :=
  { method := "GET", headers := [("Authorization", token)], body := none,
    query := [("name", name)] }

/-- The ping request built by `Client.Ping` and `RegistryClient.Ping`. -/
def clientPingRequest (token : String) : HttpRequest :=
  { method := "GET", headers := [("Authorization", token)], body := none,
    query := [] }

theorem sameKey_refl (s : Service) : sameKey s s = true := by
  simp [sameKey]

theorem sameKey_set_added_left (s t : Service) (x : Int) :
    sameKey { s with added := x } t = sameKey s t := rfl

theorem sameKey_set_added_right (s t : Service) (x : Int) :
    sameKey s { t with added := x } = sameKey s t := rfl

theorem indexOf_eq_none_iff (l : ServiceList) (t : Service) :
    indexOf l t = none ↔ ∀ s ∈ l, sameKey s t = false := by
  induction l with
  | nil => simp [indexOf]
  | cons s rest ih =>
    cases hb : sameKey s t with
    | true => simp [indexOf, hb]
    | false => simp [indexOf, hb, Option.map_eq_none', ih]

theorem indexOf_some (l : ServiceList) (t : Service) (idx : Nat)
    (h : indexOf l t = some idx) :
    ∃ hlt : idx < l.length, sameKey (l.get ⟨idx, hlt⟩) t = true := by
  induction l generalizing idx with
  | nil => simp [indexOf] at h
  | cons s rest ih =>
    cases hb : sameKey s t with
    | true =>
      simp [indexOf, hb] at h
      subst h
      exact ⟨Nat.succ_pos _, hb⟩
    | false =>
      simp only [indexOf, hb, Bool.false_eq_true, if_false, Option.map_eq_some'] at h
      obtain ⟨j, hj, rfl⟩ := h
      obtain ⟨hlt, hkey⟩ := ih j hj
      exact ⟨Nat.succ_lt_succ hlt, hkey⟩

theorem indexOf_set_added (l : ServiceList) (t : Service) (x : Int) :
    indexOf l { t with added := x } = indexOf l t := by
  induction l with
  | nil => rfl
  | cons s rest ih => simp [indexOf, sameKey_set_added_right, ih]

theorem renewAt_take_drop (now : Int) (l : ServiceList) (idx : Nat)
    (hlt : idx < l.length) :
    renewAt now l idx =
      l.take idx ++ { l.get ⟨idx, hlt⟩ with added := now } :: l.drop (idx + 1) := by
  induction l generalizing idx with
  | nil => simp at hlt
  | cons s rest ih =>
    cases idx with
    | zero => simp [renewAt]
    | succ n =>
      simp only [renewAt, List.take_succ_cons, List.drop_succ_cons, List.cons_append,
        List.cons.injEq, true_and]
      exact ih n (Nat.lt_of_succ_lt_succ hlt)

theorem renewAt_length (now : Int) (l : ServiceList) (idx : Nat) :
    (renewAt now l idx).length = l.length := by
  induction l generalizing idx with
  | nil => rfl
  | cons s rest ih =>
    cases idx with
    | zero => simp [renewAt]
    | succ n => simp [renewAt, ih]

theorem countKey_append (l₁ l₂ : ServiceList) (t : Service) :
    countKey (l₁ ++ l₂) t = countKey l₁ t + countKey l₂ t := by
  simp [countKey, List.filter_append]

theorem countKey_eq_zero (l : ServiceList) (t : Service) :
    countKey l t = 0 ↔ ∀ s ∈ l, sameKey s t = false := by
  simp [countKey, List.length_eq_zero, List.filter_eq_nil_iff]

theorem countKey_renewAt (now : Int) (l : ServiceList) (idx : Nat) (u : Service) :
    countKey (renewAt now l idx) u = countKey l u := by
  induction l generalizing idx with
  | nil => rfl
  | cons s rest ih =>
    cases idx with
    | zero =>
      simp only [renewAt, countKey, List.filter_cons, sameKey_set_added_left]
      by_cases hb : sameKey s u = true <;> simp [hb]
    | succ n =>
      have ih' := ih n
      simp only [countKey, List.filter_cons] at ih' ⊢
      simp only [renewAt, List.filter_cons]
      by_cases hb : sameKey s u = true <;> simp [hb, ih']

theorem countKey_pos_of_indexOf_some (l : ServiceList) (t : Service) (idx : Nat)
    (h : indexOf l t = some idx) : countKey l t ≠ 0 := by
  obtain ⟨hlt, hkey⟩ := indexOf_some l t idx h
  intro hz
  rw [countKey_eq_zero] at hz
  have := hz _ (List.get_mem l idx hlt)
  rw [hkey] at this
  exact Bool.noConfusion this

theorem removeGo_eq_removeFirstKey (l : ServiceList) (t : Service) :
    removeGo l t = removeFirstKey l t := by
  induction l with
  | nil => rfl
  | cons s rest ih =>
    cases hb : sameKey s t with
    | true => simp [removeGo, indexOf, removeFirstKey, hb, List.eraseIdx]
    | false =>
      have hRHS : removeFirstKey (s :: rest) t = s :: removeFirstKey rest t := by
        simp [removeFirstKey, hb]
      rw [hRHS, ← ih]
      cases hrest : indexOf rest t with
      | none => simp [removeGo, indexOf, hb, hrest]
      | some j => simp [removeGo, indexOf, hb, hrest, List.eraseIdx]

theorem filter_not_sameKey_removeFirstKey (l : ServiceList) (t : Service) :
    (removeFirstKey l t).filter (fun s => ! sameKey s t) =
      l.filter (fun s => ! sameKey s t) := by
  induction l with
  | nil => rfl
  | cons s rest ih =>
    cases hb : sameKey s t with
    | true => simp [removeFirstKey, hb, List.filter_cons]
    | false => simp [removeFirstKey, hb, List.filter_cons, ih]

/-- C3: `Add` is an upsert keyed by `(name, host)`.  When the key is present
the record count is unchanged and the matched record's `added` timestamp is
set to `now` with every other record left in place; when absent the record is
appended with `added = now`, growing the count by exactly one; the timestamp
supplied by the caller in the argument is ignored in both branches; and the
number of records carrying the argument's key after the call is one when it
was zero and unchanged otherwise, so `Add` never creates a duplicate key.
`Add` is a total function of the state: it has no failure outcome. -/
theorem add_upsert_by_key (r : RandomRegistry) (now : Int) (t : Service) :
    ((indexOf r.services t).isSome = true →
      (r.Add now t).services.length = r.services.length) ∧
    (indexOf r.services t = none →
      (r.Add now t).services = r.services ++ [{ t with added := now }]) ∧
    (∀ x : Int, r.Add now { t with added := x } = r.Add now t) ∧
    (countKey (r.Add now t).services t =
      if countKey r.services t = 0 then 1 else countKey r.services t) ∧
    (∀ idx, indexOf r.services t = some idx →
      ∃ hlt : idx < r.services.length,
        sameKey (r.services.get ⟨idx, hlt⟩) t = true ∧
        (r.Add now t).services =
          r.services.take idx ++
            { r.services.get ⟨idx, hlt⟩ with added := now } ::
              r.services.drop (idx + 1)) := by
  refine ⟨?_, ?_, ?_, ?_, ?_⟩
  · intro hsome
    obtain ⟨idx, hidx⟩ := Option.isSome_iff_exists.mp hsome
    simp [RandomRegistry.Add, addGo, hidx, renewAt_length]
  · intro hnone
    simp [RandomRegistry.Add, addGo, hnone]
  · intro x
    have h := indexOf_set_added r.services t x
    have hgo : addGo r.services now { t with added := x } = addGo r.services now t := by
      unfold addGo
      rw [h]
    simp [RandomRegistry.Add, hgo]
  · cases hidx : indexOf r.services t with
    | some idx =>
      have hpos := countKey_pos_of_indexOf_some r.services t idx hidx
      simp [RandomRegistry.Add, addGo, hidx, countKey_renewAt, hpos]
    | none =>
      have hall := (indexOf_eq_none_iff r.services t).mp hidx
      have hz : countKey r.services t = 0 := (countKey_eq_zero r.services t).mpr hall
      rw [show (r.Add now t).services = r.services ++ [{ t with added := now }] by
        simp [RandomRegistry.Add, addGo, hidx]]
      rw [countKey_append, hz]
      simp [countKey, List.filter_cons, sameKey_set_added_left, sameKey_refl]
  · intro idx hidx
    obtain ⟨hlt, hkey⟩ := indexOf_some r.services t idx hidx
    refine ⟨hlt, hkey, ?_⟩
    simp [RandomRegistry.Add, addGo, hidx, renewAt_take_drop now r.services idx hlt]

/-- Witness for C3: adding a record to the empty store inserts it with the
server-assigned timestamp `5`, ignoring the caller-supplied `99`. -/
theorem add_upsert_by_key_witness :
    (RandomRegistry.Add ⟨[], 1, 2⟩ 5 ⟨"svc", "h", 99⟩).services = [⟨"svc", "h", 5⟩] := by
  have h := add_upsert_by_key ⟨[], 1, 2⟩ 5 ⟨"svc", "h", 99⟩
  exact (h.2.1 (by decide)).trans (by decide)

/-- C5: `Remove` keeps both windows unchanged; when no record carries the
argument's `(name, host)` key the whole store is unchanged (and there is no
error outcome — `Remove` is a total function of the state); when the key is
present the record at the first matching index is deleted and every record
before and after it is kept in place; records with any other key are left
untouched. -/
theorem remove_exact_match_or_noop (r : RandomRegistry) (t : Service) :
    ((r.Remove t).timeout = r.timeout) ∧
    ((r.Remove t).keep = r.keep) ∧
    ((∀ s ∈ r.services, sameKey s t = false) → r.Remove t = r) ∧
    (∀ idx, indexOf r.services t = some idx →
      ∃ hlt : idx < r.services.length,
        sameKey (r.services.get ⟨idx, hlt⟩) t = true ∧
        (r.Remove t).services = r.services.take idx ++ r.services.drop (idx + 1)) ∧
    ((r.Remove t).services.filter (fun s => ! sameKey s t) =
      r.services.filter (fun s => ! sameKey s t)) := by
  refine ⟨rfl, rfl, ?_, ?_, ?_⟩
  · intro hall
    have hn : indexOf r.services t = none := (indexOf_eq_none_iff _ _).mpr hall
    show { r with services := removeGo r.services t } = r
    rw [show removeGo r.services t = r.services by simp [removeGo, hn]]
  · intro idx hidx
    obtain ⟨hlt, hkey⟩ := indexOf_some r.services t idx hidx
    refine ⟨hlt, hkey, ?_⟩
    show removeGo r.services t = _
    simp [removeGo, hidx, List.eraseIdx_eq_take_drop_succ]
  · show (removeGo r.services t).filter _ = _
    rw [removeGo_eq_removeFirstKey]
    exact filter_not_sameKey_removeFirstKey r.services t

/-- Witness for C5: removing the sole record whose key matches (with a
different timestamp in the argument) empties the store. -/
theorem remove_exact_match_or_noop_witness :
    (RandomRegistry.Remove ⟨[⟨"svc", "h", 0⟩], 1, 2⟩ ⟨"svc", "h", 7⟩).services = [] := by
  have h := remove_exact_match_or_noop ⟨[⟨"svc", "h", 0⟩], 1, 2⟩ ⟨"svc", "h", 7⟩
  obtain ⟨hlt, hkey, heq⟩ := h.2.2.2.1 0 (by decide)
  exact heq.trans (by decide)

theorem mem_getAll_iff (r : RandomRegistry) (now : Int) (name : String)
    (inactive : Bool) (s : Service) :
    s ∈ (r.getAll now name inactive).1 ↔
      s ∈ r.services ∧
        includedService r.timeout r.keep now name inactive s = true := by
  simp [RandomRegistry.getAll, List.mem_filter]

theorem includedService_false_iff (timeout keep now : Int) (name : String)
    (s : Service) :
    includedService timeout keep now name false s = true ↔
      (name = "" ∨ name = s.name) ∧ age now s < timeout := by
  simp [includedService, matchesName]

theorem includedService_true_iff (timeout keep now : Int) (name : String)
    (s : Service) (h : timeout ≤ keep) :
    includedService timeout keep now name true s = true ↔
      (name = "" ∨ name = s.name) ∧ age now s < keep := by
  simp only [includedService, matchesName, Bool.and_eq_true, Bool.or_eq_true,
    decide_eq_true_eq, beq_iff_eq, true_and]
  refine and_congr_right fun _ => ?_
  constructor
  · rintro (h1 | ⟨h1, h2⟩)
    · omega
    · exact h2
  · intro hk
    by_cases ht : age now s < timeout
    · exact Or.inl ht
    · exact Or.inr ⟨by omega, hk⟩

theorem Get_eq_error (r : RandomRegistry) (now : Int) (name : String) (k : Nat)
    (h : (r.getAll now name false).1.length = 0) :
    (r.Get now name k).1 = Except.error ("so such service '" ++ name ++ "'") := by
  simp [RandomRegistry.Get, h]

theorem Get_eq_ok (r : RandomRegistry) (now : Int) (name : String) (k : Nat)
    (h : ¬ (r.getAll now name false).1.length = 0) :
    (r.Get now name k).1 =
      Except.ok ((r.getAll now name false).1.get
        ⟨k % (r.getAll now name false).1.length,
          Nat.mod_lt k (Nat.pos_of_ne_zero h)⟩) := by
  simp [RandomRegistry.Get, h]

/-- Counterexample to C1: the store never enforces `Timeout ≤ Keep`, and with
`timeout = 10` and `keep = 5` a record of age `7` (at least the retention
window) is returned by `List`, so it does not hold for every store state that
a record appears in the `includeInactive = true` result only when its age is
strictly below the retention window. -/
theorem list_window_counterexample :
    (⟨"svc", "h", 0⟩ : Service) ∈
        (RandomRegistry.List ⟨[⟨"svc", "h", 0⟩], 10, 5⟩ 7 "svc").1 ∧
      ¬ age 7 ⟨"svc", "h", 0⟩ < (5 : Int) := by
  constructor
  · decide
  · decide

/-- C1 as amended: in a store whose windows satisfy
`activeWindow ≤ retentionWindow`, a record appears in the
`includeInactive = true` result exactly when its name matches the query (an
empty query matching everything) and its age is strictly below the retention
window; in the `includeInactive = false` result exactly when it matches and
its age is strictly below the active window; hence a record aged at least
the active window is absent from the `includeInactive = false` result and a
record aged at least the retention window is absent from both. -/
theorem list_window_partition (r : RandomRegistry) (now : Int) (name : String)
    (s : Service) (hTK : r.timeout ≤ r.keep) :
    (s ∈ (r.List now name).1 ↔
      s ∈ r.services ∧ (name = "" ∨ name = s.name) ∧ age now s < r.keep) ∧
    (s ∈ (r.getAll now name false).1 ↔
      s ∈ r.services ∧ (name = "" ∨ name = s.name) ∧ age now s < r.timeout) ∧
    (r.timeout ≤ age now s → s ∉ (r.getAll now name false).1) ∧
    (r.keep ≤ age now s → s ∉ (r.List now name).1) := by
  have hT : s ∈ (r.List now name).1 ↔
      s ∈ r.services ∧ (name = "" ∨ name = s.name) ∧ age now s < r.keep := by
    rw [RandomRegistry.List, mem_getAll_iff,
      includedService_true_iff r.timeout r.keep now name s hTK]
  have hF : s ∈ (r.getAll now name false).1 ↔
      s ∈ r.services ∧ (name = "" ∨ name = s.name) ∧ age now s < r.timeout := by
    rw [mem_getAll_iff, includedService_false_iff]
  refine ⟨hT, hF, ?_, ?_⟩
  · intro hage hmem
    have := (hF.mp hmem).2.2
    omega
  · intro hage hmem
    have := (hT.mp hmem).2.2
    omega

/-- Witness for C1 (amended): in a store with `timeout = 1 ≤ keep = 24`, the
record aged `13` is listed by `List` but a record aged `25` is not. -/
theorem list_window_partition_witness :
    (⟨"svc", "hostA", 0⟩ : Service) ∈
        (RandomRegistry.List ⟨[⟨"svc", "hostA", 0⟩, ⟨"svc", "hostB", -12⟩], 1, 24⟩ 13 "svc").1 ∧
      (⟨"svc", "hostB", -12⟩ : Service) ∉
        (RandomRegistry.List ⟨[⟨"svc", "hostA", 0⟩, ⟨"svc", "hostB", -12⟩], 1, 24⟩ 13 "svc").1 := by
  constructor
  · exact (list_window_partition ⟨[⟨"svc", "hostA", 0⟩, ⟨"svc", "hostB", -12⟩], 1, 24⟩
      13 "svc" ⟨"svc", "hostA", 0⟩ (by decide)).1.mpr (by decide)
  · exact (list_window_partition ⟨[⟨"svc", "hostA", 0⟩, ⟨"svc", "hostB", -12⟩], 1, 24⟩
      13 "svc" ⟨"svc", "hostB", -12⟩ (by decide)).2.2.2 (by decide)

/-- C2: `Get` returns a not-found error exactly when the active subset for
the query is empty, and otherwise returns the record of the active subset
selected by the `rand.Intn` draw: for a draw `k` below the subset's length
the result is precisely element `k`, so a uniform draw selects each element
of the active subset with equal probability; every successful result matches
the queried name (an empty name matching everything) and has age strictly
below the active window. -/
theorem get_random_active (r : RandomRegistry) (now : Int) (name : String)
    (k : Nat) :
    (((r.Get now name k).1 =
        Except.error ("so such service '" ++ name ++ "'")) ↔
      activeSubset r now name = []) ∧
    (∀ s, (r.Get now name k).1 = Except.ok s →
      s ∈ r.services ∧ (name = "" ∨ name = s.name) ∧ age now s < r.timeout) ∧
    (∀ hk : k < (activeSubset r now name).length,
      (r.Get now name k).1 = Except.ok ((activeSubset r now name).get ⟨k, hk⟩)) := by
  refine ⟨?_, ?_, ?_⟩
  · by_cases h : (r.getAll now name false).1.length = 0
    · rw [Get_eq_error r now name k h]
      simp [activeSubset, List.length_eq_zero] at h ⊢
      exact h
    · rw [Get_eq_ok r now name k h]
      simp only [activeSubset]
      constructor
      · intro hc
        exact absurd hc (by simp)
      · intro hc
        rw [hc] at h
        simp at h
  · intro s hs
    by_cases h : (r.getAll now name false).1.length = 0
    · rw [Get_eq_error r now name k h] at hs
      exact absurd hs (by simp)
    · rw [Get_eq_ok r now name k h] at hs
      have hmem : s ∈ (r.getAll now name false).1 := by
        have := Except.ok.inj hs
        rw [← this]
        exact List.get_mem _ _ _
      rw [mem_getAll_iff, includedService_false_iff] at hmem
      exact ⟨hmem.1, hmem.2.1, hmem.2.2⟩
  · intro hk
    have h : ¬ (r.getAll now name false).1.length = 0 := by
      intro hz
      rw [show activeSubset r now name = (r.getAll now name false).1 from rfl] at hk
      omega
    rw [Get_eq_ok r now name k h]
    congr 1
    apply congrArg
    have hkk : k % (r.getAll now name false).1.length = k :=
      Nat.mod_eq_of_lt hk
    exact Fin.ext hkk

/-- Witness for C2: with two active replicas and draw `1`, `Get` returns the
second replica. -/
theorem get_random_active_witness :
    (RandomRegistry.Get ⟨[⟨"svc", "hostA", 0⟩, ⟨"svc", "hostB", 1⟩], 5, 9⟩ 2 "svc" 1).1 =
      Except.ok ⟨"svc", "hostB", 1⟩ := by
  have h := (get_random_active ⟨[⟨"svc", "hostA", 0⟩, ⟨"svc", "hostB", 1⟩], 5, 9⟩
    2 "svc" 1).2.2 (by decide)
  exact h.trans (by rfl)

theorem foldl_Remove_services (l : ServiceList) (r : RandomRegistry) :
    (l.foldl (fun acc s => acc.Remove s) r).services =
      l.foldl removeGo r.services := by
  induction l generalizing r with
  | nil => rfl
  | cons s rest ih =>
    simp only [List.foldl_cons]
    exact ih (r.Remove s)

theorem foldl_Remove_timeout (l : ServiceList) (r : RandomRegistry) :
    (l.foldl (fun acc s => acc.Remove s) r).timeout = r.timeout := by
  induction l generalizing r with
  | nil => rfl
  | cons s rest ih =>
    simp only [List.foldl_cons]
    exact ih (r.Remove s)

theorem foldl_Remove_keep (l : ServiceList) (r : RandomRegistry) :
    (l.foldl (fun acc s => acc.Remove s) r).keep = r.keep := by
  induction l generalizing r with
  | nil => rfl
  | cons s rest ih =>
    simp only [List.foldl_cons]
    exact ih (r.Remove s)

theorem foldl_removeFirstKey_cons (x : Service) (xs toRemove : ServiceList)
    (h : ∀ s ∈ toRemove, sameKey x s = false) :
    toRemove.foldl removeFirstKey (x :: xs) =
      x :: toRemove.foldl removeFirstKey xs := by
  induction toRemove generalizing xs with
  | nil => rfl
  | cons s rem ih =>
    have hx : sameKey x s = false := h s (List.mem_cons_self s rem)
    simp only [List.foldl_cons]
    rw [show removeFirstKey (x :: xs) s = x :: removeFirstKey xs s by
      simp [removeFirstKey, hx]]
    exact ih (removeFirstKey xs s) fun u hu => h u (List.mem_cons_of_mem s hu)

theorem foldl_remove_filter (l : ServiceList) (p : Service → Bool)
    (hUniq : l.Pairwise fun a b => sameKey a b = false) :
    (l.filter p).foldl removeFirstKey l = l.filter fun s => ! p s := by
  induction l with
  | nil => rfl
  | cons x xs ih =>
    rw [List.pairwise_cons] at hUniq
    obtain ⟨hx, hxs⟩ := hUniq
    by_cases hp : p x = true
    · rw [List.filter_cons_of_pos hp, List.foldl_cons,
        show removeFirstKey (x :: xs) x = xs by simp [removeFirstKey, sameKey_refl],
        ih hxs, List.filter_cons_of_neg (by simp [hp])]
    · have hp' : p x = false := by simpa using hp
      rw [List.filter_cons_of_neg (by simp [hp']),
        foldl_removeFirstKey_cons x xs (xs.filter p)
          (fun s hs => hx s (List.mem_of_mem_filter hs)),
        ih hxs, List.filter_cons_of_pos (by simp [hp'])]

theorem getAll_purges_strictly_stale (r : RandomRegistry) (now : Int)
    (name : String) (inactive : Bool)
    (hUniq : r.services.Pairwise fun a b => sameKey a b = false) :
    (r.getAll now name inactive).2.services =
      r.services.filter fun s => ! isStale r.keep now s := by
  show ((r.services.filter (isStale r.keep now)).foldl
      (fun acc s => acc.Remove s) r).services = _
  rw [foldl_Remove_services,
    show (removeGo : ServiceList → Service → ServiceList) = removeFirstKey from
      funext fun l => funext fun t => removeGo_eq_removeFirstKey l t]
  exact foldl_remove_filter r.services (isStale r.keep now) hUniq

theorem Get_registry (r : RandomRegistry) (now : Int) (name : String) (k : Nat) :
    (r.Get now name k).2 = (r.getAll now name false).2 := by
  unfold RandomRegistry.Get
  by_cases h : (r.getAll now name false).1.length = 0 <;> simp [h]

/-- Counterexample to C4: the stale test in `getAll` is the strict comparison
`time.Since(service.Added) > r.Keep`, so a record whose age equals the
retention window exactly is kept in the store across a `List` call, while the
claim says every record aged at least the retention window is removed. -/
theorem stale_boundary_counterexample :
    ((RandomRegistry.List ⟨[⟨"svc", "h", 0⟩], 1, 7⟩ 7 "svc").2).services =
        [⟨"svc", "h", 0⟩] ∧
      age 7 ⟨"svc", "h", 0⟩ = (⟨[⟨"svc", "h", 0⟩], 1, 7⟩ : RandomRegistry).keep := by
  constructor
  · decide
  · decide

/-- C4 as amended: on every `Get` or `List` call over a store whose
`(name, host)` keys are pairwise distinct (the store's documented
invariant), every record whose age is strictly greater than the retention
window — matching the query or not — is removed from the record set before
the call returns, and every surviving record has age at most the retention
window; records aged exactly the retention window survive. -/
theorem read_purges_stale (r : RandomRegistry) (now : Int) (name : String)
    (k : Nat)
    (hUniq : r.services.Pairwise fun a b => sameKey a b = false) :
    ((r.List now name).2.services =
      r.services.filter fun s => ! isStale r.keep now s) ∧
    ((r.Get now name k).2.services =
      r.services.filter fun s => ! isStale r.keep now s) ∧
    (∀ s ∈ (r.List now name).2.services, age now s ≤ r.keep) ∧
    (∀ s ∈ (r.Get now name k).2.services, age now s ≤ r.keep) := by
  have hL : (r.List now name).2.services =
      r.services.filter fun s => ! isStale r.keep now s :=
    getAll_purges_strictly_stale r now name true hUniq
  have hG : (r.Get now name k).2.services =
      r.services.filter fun s => ! isStale r.keep now s := by
    rw [Get_registry]
    exact getAll_purges_strictly_stale r now name false hUniq
  have hmem : ∀ s ∈ r.services.filter (fun s => ! isStale r.keep now s),
      age now s ≤ r.keep := by
    intro s hs
    have := List.of_mem_filter hs
    simp only [isStale, Bool.not_eq_true', decide_eq_false_iff_not, not_lt] at this
    exact this
  exact ⟨hL, hG, fun s hs => hmem s (hL ▸ hs), fun s hs => hmem s (hG ▸ hs)⟩

/-- Witness for C4 (amended): reading a two-record store with distinct keys
purges the record aged past the retention window and keeps the fresh one. -/
theorem read_purges_stale_witness :
    ((RandomRegistry.List ⟨[⟨"a", "h1", 9⟩, ⟨"b", "h2", 0⟩], 1, 2⟩ 10 "").2).services =
      [⟨"a", "h1", 9⟩] := by
  have h := read_purges_stale ⟨[⟨"a", "h1", 9⟩, ⟨"b", "h2", 0⟩], 1, 2⟩ 10 "" 0
    (by decide)
  exact h.1.trans (by decide)

/-- Counterexample to C8: the stale removals of `getAll` do not run under the
same lock acquisition as the scan.  An `Add` renewing the record between the
scan and the removal pass is wiped out: the interleaved run ends with an
empty store, while both atomic serializations (read before the add, or after
it) end with the renewed record present. -/
theorem expiry_lock_counterexample :
    ((getAllInterleaved ⟨[⟨"svc", "h", 0⟩], 1, 2⟩ 10 "svc" true
        [StoreOp.add 10 ⟨"svc", "h", 0⟩]).2.services = []) ∧
    ((applyOp (RandomRegistry.List ⟨[⟨"svc", "h", 0⟩], 1, 2⟩ 10 "svc").2
        (StoreOp.add 10 ⟨"svc", "h", 0⟩)).services = [⟨"svc", "h", 10⟩]) ∧
    ((RandomRegistry.List (applyOp ⟨[⟨"svc", "h", 0⟩], 1, 2⟩
        (StoreOp.add 10 ⟨"svc", "h", 0⟩)) 10 "svc").2.services =
      [⟨"svc", "h", 10⟩]) := by
  refine ⟨by decide, by decide, by decide⟩

/-- C8 as amended: the record set and both windows are guarded by the one
registry mutex, and the selection/filter pass and the collection of stale
records do execute in a single critical section; but the stale removals run
in separate critical sections after that lock is released, so only in the
absence of interleaved writers does the two-phase execution coincide with
the atomic `getAll` semantics; `getAll` itself never changes the windows. -/
theorem expiry_lock_structure (r : RandomRegistry) (now : Int) (name : String)
    (inactive : Bool) :
    (getAllInterleaved r now name inactive [] = r.getAll now name inactive) ∧
    ((r.getAll now name inactive).2.timeout = r.timeout) ∧
    ((r.getAll now name inactive).2.keep = r.keep) := by
  refine ⟨rfl, ?_, ?_⟩
  · exact foldl_Remove_timeout _ _
  · exact foldl_Remove_keep _ _

/-- Counterexample to C6: `Auto` only reads the running flag; the flag is set
later, inside the spawned `doAuto` goroutine, so the check and the
transition to running are not one atomic step.  Two `Auto` calls that both
run before either spawned goroutine starts each observe `running = false`
and two renewal loops start. -/
theorem auto_two_loops_counterexample :
    (agentRun agentInit
        [AgentEvent.auto, AgentEvent.auto, AgentEvent.start,
          AgentEvent.start]).loops = 2 ∧
      ([AgentEvent.auto, AgentEvent.auto, AgentEvent.start,
          AgentEvent.start].count AgentEvent.auto) = 2 := by
  constructor
  · decide
  · decide

/-- C6 as amended: an `Auto` call made while the running flag is true is a
no-op that spawns nothing, and in particular once a loop has started and set
the flag, a later `Auto` call followed by a goroutine start leaves the loop
count at one; the check-and-set, however, is not atomic across concurrent
`Auto` calls, since the flag is only set inside the spawned goroutine. -/
theorem auto_noop_when_running (st : AgentState) (h : st.running = true) :
    agentStep st AgentEvent.auto = st ∧
      (agentRun agentInit
        [AgentEvent.auto, AgentEvent.start, AgentEvent.auto,
          AgentEvent.start]).loops = 1 := by
  constructor
  · simp [agentStep, h]
  · decide

/-- Witness for C6 (amended): an `Auto` call on a running agent changes
nothing. -/
theorem auto_noop_when_running_witness :
    agentStep ⟨true, 0, 1⟩ AgentEvent.auto = ⟨true, 0, 1⟩ :=
  (auto_noop_when_running ⟨true, 0, 1⟩ rfl).1

/-- C7: while the agent is running, `Deregister` performs one non-blocking
send on the single-slot stop channel: afterwards exactly one signal is
pending whether the slot was empty (the send fills it) or full (the send is
dropped), so at most one signal is ever pending; the resulting channel state
is independent of the remote call's outcome — the signal is sent before and
hence regardless of a remote failure; and the remote deregister call fails
exactly when an error is returned to the caller. -/
theorem deregister_signals_then_errors (st : RCState)
    (remote : Except String Unit) (h : st.running = true)
    (hch : st.channel ≤ 1) :
    ((RegistryClient.Deregister st remote).1.channel = 1) ∧
    (∀ o : Except String Unit,
      (RegistryClient.Deregister st o).1 = (RegistryClient.Deregister st remote).1) ∧
    (∀ e : String,
      (RegistryClient.Deregister st remote).2 = some e ↔
        remote = Except.error e) := by
  refine ⟨?_, ?_, ?_⟩
  · by_cases hc : 1 ≤ st.channel
    · cases remote <;> simp [RegistryClient.Deregister, h, sendShutdown, hc] <;> omega
    · cases remote <;> simp [RegistryClient.Deregister, h, sendShutdown, hc] <;> omega
  · intro o
    cases o <;> cases remote <;> rfl
  · intro e
    cases remote with
    | ok _ => simp [RegistryClient.Deregister]
    | error e2 =>
      simp only [RegistryClient.Deregister, Option.some.injEq, Except.error.injEq]

/-- Witness for C7: a deregister on a running agent with a signal already
pending keeps exactly one signal pending and returns the remote failure. -/
theorem deregister_signals_then_errors_witness :
    ((RegistryClient.Deregister ⟨true, 1⟩
        (Except.error "connection refused")).1.channel = 1) ∧
      ((RegistryClient.Deregister ⟨true, 1⟩
          (Except.error "connection refused")).2 = some "connection refused") := by
  have h := deregister_signals_then_errors ⟨true, 1⟩
    (Except.error "connection refused") rfl (by decide)
  exact ⟨h.1, (h.2.2 "connection refused").mpr rfl⟩

/-- C9 evaluated at the failing input: transport failures are propagated to
the caller by both `Discover` and `List`, but a decode failure is swallowed —
on an undecodable 200 body, `Discover` returns the zero value's host with no
error and `List` returns an empty slice with no error, instead of the decode
error the claim requires. -/
theorem discover_list_swallow_decode_error :
    (∀ e : String,
      DiscoveryClient.Discover (Except.error e) decodeServiceFail =
        Except.error e) ∧
    (DiscoveryClient.Discover (Except.ok "not-json") decodeServiceFail =
      Except.ok "") ∧
    (∀ e : String,
      DiscoveryClient.List (Except.error e) decodeListFail = Except.error e) ∧
    (DiscoveryClient.List (Except.ok "not-json") decodeListFail =
      Except.ok []) := by
  exact ⟨fun e => rfl, rfl, fun e => rfl, rfl⟩

theorem firstValue_auth_mismatch (t : String) :
    firstValue [("Authorization", t)] "Authentication" = "" := by
  simp only [firstValue]
  rw [if_neg (by decide)]

theorem firstValue_auth_match (t : String) :
    firstValue [("Authorization", t)] "Authorization" = t := by
  simp [firstValue]

/-- C10: the register, deregister and discover handlers evaluate the
authenticator on the request's `Authentication` header value, while the list
and ping handlers evaluate it on the `Authorization` header value; every
client puts its token in the `Authorization` header; hence for any
authenticator that rejects the empty string, client-issued register,
deregister and discover requests are answered 401 regardless of the token,
while client-issued list and ping requests with an accepted token
succeed. -/
theorem auth_header_mismatch (auth : String → Bool) (token name : String)
    (service : Service) (r : RandomRegistry) (now : Int) (k : Nat)
    (hreject : auth "" = false) (haccept : auth token = true) :
    ((Server.handleRegister auth
        (registryClientRegisterRequest token service) r now).1 = 401) ∧
    ((Server.handleDeregister auth
        (registryClientDeregisterRequest token service) r).1 = 401) ∧
    ((Server.handleDiscover auth
        (clientDiscoverRequest token name) r now k).1 = 401) ∧
    ((Server.handleList auth (clientListRequest token name) r now).1 = 200) ∧
    (Server.handlePing auth (clientPingRequest token) = 200) := by
  refine ⟨?_, ?_, ?_, ?_, ?_⟩
  · simp [Server.handleRegister, registryClientRegisterRequest,
      firstValue_auth_mismatch, hreject]
  · simp [Server.handleDeregister, registryClientDeregisterRequest,
      firstValue_auth_mismatch, hreject]
  · simp [Server.handleDiscover, clientDiscoverRequest,
      firstValue_auth_mismatch, hreject]
  · simp [Server.handleList, clientListRequest, firstValue_auth_match, haccept]
  · simp [Server.handlePing, clientPingRequest, firstValue_auth_match, haccept]

/-- Witness for C10: with the authenticator accepting exactly `"secret"` and
the client using that very token, a register request is still answered 401
while a ping request succeeds. -/
theorem auth_header_mismatch_witness :
    ((Server.handleRegister (fun t => t == "secret")
        (registryClientRegisterRequest "secret" ⟨"svc", "h", 0⟩)
        ⟨[], 1, 2⟩ 0).1 = 401) ∧
      (Server.handlePing (fun t => t == "secret")
        (clientPingRequest "secret") = 200) := by
  have h := auth_header_mismatch (fun t => t == "secret") "secret" "svc"
    ⟨"svc", "h", 0⟩ ⟨[], 1, 2⟩ 0 0 (by decide) (by decide)
  exact ⟨h.1, h.2.2.2.2⟩
